import Mathlib

/-!
Verification of the CloudLabs packaging-design editor core.

This file shallowly embeds the document store (`src/lib/store.ts`), the
preview-texture store and geometry/text-layout engine (`src/lib/dieline.ts`),
and the texture-synchronization guard of the interactive stage
(`src/unnamed/part_003`) into Lean, and proves the specified properties.

Conventions of the embedding:
* JavaScript numbers are embedded as `ℚ` where the code only does arithmetic
  and comparisons, and as `ℝ` in the trigonometric text-layout engine.
* JavaScript objects are values; a shallow copy (`{...obj}`) is therefore the
  identity, and `cloneNode`/`cloneNodes` are identities kept for a faithful
  correspondence with the source.
* `Partial` records are embedded with `Option` fields (`none` = key absent).
-/

namespace CloudLabs

/-- JS `Math.round`: rounds half-way cases toward positive infinity,
`Math.round x = ⌊x + 0.5⌋`. -/
def jsRound (q : ℚ) : ℤ := ⌊q + 1/2⌋

/-- Truncation toward zero, as JS number-to-integer conversion inside `%`. -/
def ratTrunc (q : ℚ) : ℤ := if 0 ≤ q then ⌊q⌋ else ⌈q⌉

/-- JS remainder operator `a % b` (sign follows the dividend). -/
def jsRem (a b : ℚ) : ℚ := a - b * (ratTrunc (a / b) : ℚ)

/-- `((x % 360) + 360) % 360` — the store's rotation normalization. -/
def jsEmod360 (x : ℚ) : ℚ := jsRem (jsRem x 360 + 360) 360

/-- A primitive JS value stored in a node's `data` record
(`src/lib/store.ts` node payloads hold only primitives). `nan` is kept
separate because `NaN !== NaN` under strict equality. -/
inductive Val
  | num (q : ℚ)
  | nan
  | str (s : String)
  | bool (b : Bool)
  | undef
deriving DecidableEq

/-- JS strict equality `===` on primitive values: value equality except that
`NaN === NaN` is false. -/
def jsStrictEq : Val → Val → Bool
  | .nan, _ => false
  | _, .nan => false
  | a, b => decide (a = b)

/-- A node's `data` record: an ordered key/value list (JS object with unique
keys; insertion order preserved). -/
def NodeData := List (String × Val)
deriving DecidableEq

instance : Append NodeData := ⟨List.append⟩

/-- Property access `record[key]` on a data record. -/
def getVal (d : NodeData) (k : String) : Option Val :=
  (List.find? (fun kv => decide (kv.1 = k)) d).map (fun kv => kv.2)

/-- Object spread `{...base, ...updates}`: keys of `base` keep their slots
(values overridden by `updates` where present); keys new in `updates` are
appended in order. -/
def mergeData (base updates : NodeData) : NodeData :=
  (List.map (fun kv =>
      match getVal updates kv.1 with
      | some v => (kv.1, v)
      | none => kv) base)
    ++ List.filter (fun kv => (getVal base kv.1).isNone) updates

/-- The key set walked by `hasShallowChanges`
(`new Set([...Object.keys(prev), ...Object.keys(next)])`). -/
def dataKeys (prev next : NodeData) : List String :=
  (List.map Prod.fst prev ++ List.map Prod.fst next).dedup

/-- `hasShallowChanges` from `src/lib/store.ts` (lines 204–232), at the call
site in `updateNode` where both arguments are objects and `next` is a freshly
spread object (so the leading reference-equality check is false): true iff
some key differs under `===`; a missing key reads as `undefined`. -/
def hasShallowChanges (prev next : NodeData) : Bool :=
  List.any (dataKeys prev next) (fun k =>
    ! jsStrictEq ((getVal prev k).getD .undef) ((getVal next k).getD .undef))

/-- A `DocumentNode`: the store treats all variants uniformly through `id`
and the generic `data` record (the open fallback variant has optional data). -/
structure Node where
  id : String
  type : String
  data : Option NodeData
deriving DecidableEq

/-- `cloneNode`: shallow copy `{...node, data: {...node.data}}`; the identity
under value semantics. -/
def cloneNode (n : Node) : Node := n

/-- `cloneNodes`: element-wise shallow copy of a node array. -/
def cloneNodes (ns : List Node) : List Node := List.map cloneNode ns

/-- The document store state (`DocumentState` in `src/lib/store.ts`),
restricted to the fields read or written by the operations modelled here;
asset registries and panel bookkeeping are never touched by these
operations. `past` grows at the tail (array `push`); `future` grows at the
head. -/
structure DocState where
  zoom : ℚ
  rotation : ℚ
  nodes : List Node
  selection : List String
  isPropertiesPanelOpen : Bool
  showBoundingBox : Bool
  showTransparencyGrid : Bool
  isPrintPreview : Bool
  past : List (List Node)
  future : List (List Node)
deriving DecidableEq

/-- The initial store state from `create(...)`. -/
def initialState : DocState :=
  { zoom := 1
    rotation := 0
    nodes := []
    selection := []
    isPropertiesPanelOpen := false
    showBoundingBox := true
    showTransparencyGrid := false
    isPrintPreview := false
    past := []
    future := [] }

/-- `MIN_ZOOM = 0.5`, `MAX_ZOOM = 2.5`, `ZOOM_STEP = 0.1`;
`normalizeZoom` rounds to 2 decimal places then clamps. -/
def normalizeZoom (value : ℚ) : ℚ :=
  min (5/2) (max (1/2) ((jsRound (value * 100) : ℚ) / 100))

/-- `setZoom`. -/
def setZoom (zoom : ℚ) (s : DocState) : DocState :=
  let nextZoom := normalizeZoom zoom
  if nextZoom = s.zoom then s else { s with zoom := nextZoom }

/-- `zoomIn`. -/
def zoomIn (s : DocState) : DocState :=
  let nextZoom := normalizeZoom (s.zoom + 1/10)
  if nextZoom = s.zoom then s else { s with zoom := nextZoom }

/-- `zoomOut`. -/
def zoomOut (s : DocState) : DocState :=
  let nextZoom := normalizeZoom (s.zoom - 1/10)
  if nextZoom = s.zoom then s else { s with zoom := nextZoom }

/-- `resetZoom`. -/
def resetZoom (s : DocState) : DocState := { s with zoom := 1 }

/-- `rotateCanvasLeft`. -/
def rotateCanvasLeft (s : DocState) : DocState :=
  let nextRotation := jsEmod360 (s.rotation - 90)
  if nextRotation = s.rotation then s else { s with rotation := nextRotation }

/-- `rotateCanvasRight`. -/
def rotateCanvasRight (s : DocState) : DocState :=
  let nextRotation := jsEmod360 (s.rotation + 90)
  if nextRotation = s.rotation then s else { s with rotation := nextRotation }

/-- `setRotation`. -/
def setRotation (rotation : ℚ) (s : DocState) : DocState :=
  { s with rotation := rotation }

/-- The per-node body of `rotateSelectionClockwise`'s `map`: returns the
mapped node together with the `hasUpdates` contribution. A non-selected node,
a node without a data object, or one whose data lacks a `rotation` key is
returned unchanged; a numeric rotation steps by +90 normalized into `[0,360)`;
a `NaN` rotation maps to `NaN` (and `NaN !== NaN` flags an update); a
non-numeric rotation is treated as 0 and becomes 90. -/
def rotateNodeCW (sel : List String) (node : Node) : Node × Bool :=
  if ¬ sel.contains node.id then (node, false)
  else
    match node.data with
    | none => (node, false)
    | some d =>
      match getVal d "rotation" with
      | none => (node, false)
      | some (.num q) =>
        let nextRotation := jsEmod360 (q + 90)
        if nextRotation = q then (node, false)
        else ({ node with data := some (mergeData d [("rotation", .num nextRotation)]) }, true)
      | some .nan =>
        ({ node with data := some (mergeData d [("rotation", .nan)]) }, true)
      | some _ =>
        ({ node with data := some (mergeData d [("rotation", .num 90)]) }, true)

/-- `rotateSelectionClockwise`. -/
def rotateSelectionClockwise (s : DocState) : DocState :=
  if s.selection = [] then s
  else
    let pairs := List.map (rotateNodeCW s.selection) s.nodes
    let nextNodes := List.map Prod.fst pairs
    let hasUpdates := List.any pairs Prod.snd
    if ¬ hasUpdates then s
    else
      { s with
        nodes := cloneNodes nextNodes
        past := s.past ++ [cloneNodes s.nodes]
        future := [] }

/-- `setNodes`. -/
def setNodes (ns : List Node) (s : DocState) : DocState :=
  { s with
    nodes := cloneNodes ns
    past := s.past ++ [cloneNodes s.nodes]
    future := [] }

/-- `setSelection`. -/
def setSelection (sel : List String) (s : DocState) : DocState :=
  { s with selection := sel }

/-- `addNode`. -/
def addNode (n : Node) (s : DocState) : DocState :=
  { s with
    nodes := s.nodes ++ [cloneNode n]
    past := s.past ++ [cloneNodes s.nodes]
    future := [] }

/-- `deleteSelection`. -/
def deleteSelection (s : DocState) : DocState :=
  if s.selection = [] then s
  else
    let remainingNodes := List.filter (fun n => ! s.selection.contains n.id) s.nodes
    if remainingNodes.length = s.nodes.length then s
    else
      { s with
        nodes := cloneNodes remainingNodes
        past := s.past ++ [cloneNodes s.nodes]
        future := []
        selection := []
        isPropertiesPanelOpen := false }

/-- `undo`: pops the last `past` snapshot into `nodes`, prepends the current
collection to `future`, clears the selection; a no-op when `past` is empty. -/
def undo (s : DocState) : DocState :=
  if s.past.isEmpty then s
  else
    { s with
      nodes := cloneNodes (s.past.getLastD [])
      past := s.past.dropLast
      future := cloneNodes s.nodes :: s.future
      selection := [] }

/-- `redo`: shifts the head of `future` into `nodes`, pushing the current
collection onto `past`; a no-op when `future` is empty. -/
def redo (s : DocState) : DocState :=
  match s.future with
  | [] => s
  | next :: rest =>
    { s with
      nodes := cloneNodes next
      past := s.past ++ [cloneNodes s.nodes]
      future := rest
      selection := [] }

/-- The body of `updateNode` up to the commit decision: `none` when the node
id is not found or the merged data has no shallow changes (state returned
unchanged), otherwise the node array with the first matching node's data
replaced by the merge. -/
def applyUpdateToNodes (nodeId : String) (updates : NodeData) :
    List Node → Option (List Node)
  | [] => none
  | n :: rest =>
    if n.id = nodeId then
      let baseData := n.data.getD []
      let nextData := mergeData baseData updates
      let changed :=
        match n.data with
        | none => true
        | some d => hasShallowChanges d nextData
      if changed then some ({ n with data := some nextData } :: rest) else none
    else Option.map (fun l => n :: l) (applyUpdateToNodes nodeId updates rest)

/-- `updateNode(nodeId, updates, {commit})` with a partial-merge update
(`commit = false` only when the literal option `commit: false` is passed). -/
def updateNode (nodeId : String) (updates : NodeData) (commit : Bool)
    (s : DocState) : DocState :=
  match applyUpdateToNodes nodeId updates s.nodes with
  | none => s
  | some nextNodes =>
    if commit = false then { s with nodes := cloneNodes nextNodes }
    else
      { s with
        nodes := cloneNodes nextNodes
        past := s.past ++ [cloneNodes s.nodes]
        future := [] }

/-- `bringSelectionToFront`: moves the primary-selected node (last selection
entry) to the end of the node array; a no-op when there is no (truthy)
primary id, the id is not found, or the node is already last. -/
def bringSelectionToFront (s : DocState) : DocState :=
  let selectedId := s.selection.getLast?.getD ""
  if selectedId = "" then s
  else
    let index := List.findIdx (fun n => n.id == selectedId) s.nodes
    if index = s.nodes.length then s
    else if index = s.nodes.length - 1 then s
    else
      let nextNodes :=
        s.nodes.take index ++ s.nodes.drop (index + 1) ++ (s.nodes.drop index).take 1
      { s with
        nodes := cloneNodes nextNodes
        past := s.past ++ [cloneNodes s.nodes]
        future := [] }

/-- `sendSelectionBackward`: moves the primary-selected node one position
earlier; a no-op when there is no (truthy) primary id, the id is not found,
or the node is already first. -/
def sendSelectionBackward (s : DocState) : DocState :=
  let selectedId := s.selection.getLast?.getD ""
  if selectedId = "" then s
  else
    let index := List.findIdx (fun n => n.id == selectedId) s.nodes
    if index = s.nodes.length then s
    else if index = 0 then s
    else
      let nextNodes :=
        s.nodes.take (index - 1) ++ (s.nodes.drop index).take 1
          ++ (s.nodes.drop (index - 1)).take 1 ++ s.nodes.drop (index + 1)
      { s with
        nodes := cloneNodes nextNodes
        past := s.past ++ [cloneNodes s.nodes]
        future := [] }

/-- The committing edits named by the specification: `setNodes`, `addNode`,
`deleteSelection`, committing `updateNode` (partial-merge form),
`rotateSelectionClockwise`, `bringSelectionToFront`, `sendSelectionBackward`. -/
inductive EditOp
  | setNodes (ns : List Node)
  | addNode (n : Node)
  | deleteSelection
  | updateNodeCommit (nodeId : String) (updates : NodeData)
  | rotateSelectionClockwise
  | bringSelectionToFront
  | sendSelectionBackward
deriving DecidableEq

/-- Interpretation of an edit as a state transition. -/
def applyEdit : EditOp → DocState → DocState
  | .setNodes ns => setNodes ns
  | .addNode n => addNode n
  | .deleteSelection => deleteSelection
  | .updateNodeCommit nodeId updates => updateNode nodeId updates true
  | .rotateSelectionClockwise => rotateSelectionClockwise
  | .bringSelectionToFront => bringSelectionToFront
  | .sendSelectionBackward => sendSelectionBackward

/-- Sequential application of edits. -/
def applyEdits (ops : List EditOp) (s : DocState) : DocState :=
  List.foldl (fun st op => applyEdit op st) s ops

/-- `n` repetitions of `undo`. -/
def undoN : ℕ → DocState → DocState
  | 0, s => s
  | k + 1, s => undo (undoN k s)

/-- An edit is effective at a state when it actually pushes the prior node
collection onto the history stack (i.e. it is not returned as a no-op). -/
def pushes (op : EditOp) (s : DocState) : Prop :=
  (applyEdit op s).past = s.past ++ [s.nodes]

instance (op : EditOp) (s : DocState) : Decidable (pushes op s) := by
  unfold pushes; infer_instance

/-- Every edit of the sequence is effective at the state it is applied to. -/
def allEffective : List EditOp → DocState → Prop
  | [], _ => True
  | op :: rest, s => pushes op s ∧ allEffective rest (applyEdit op s)

instance instDecAllEffective :
    (ops : List EditOp) → (s : DocState) → Decidable (allEffective ops s)
  | [], _ => .isTrue trivial
  | op :: rest, s =>
    have : Decidable (allEffective rest (applyEdit op s)) :=
      instDecAllEffective rest _
    inferInstanceAs (Decidable (_ ∧ _))

/-- Sequential application of non-committing (`commit:false`) updates to one
node, as during a drag or slider gesture. -/
def applyNCs (nodeId : String) (us : List NodeData) (s : DocState) : DocState :=
  List.foldl (fun st u => updateNode nodeId u false st) s us

/-- The zoom operations of the store. -/
inductive ZoomOp
  | setZ (q : ℚ)
  | inc
  | dec
  | reset
deriving DecidableEq

/-- Interpretation of a zoom operation. -/
def applyZoomOp : ZoomOp → DocState → DocState
  | .setZ q => setZoom q
  | .inc => zoomIn
  | .dec => zoomOut
  | .reset => resetZoom

/-- Sequential application of zoom operations. -/
def applyZoomOps (ops : List ZoomOp) (s : DocState) : DocState :=
  List.foldl (fun st op => applyZoomOp op st) s ops

/-! ## Preview store and texture synchronization

`usePreviewStore` lives in `src/lib/dieline.ts`; the six fixed face keys are
those of `BoxFaceKey` (evidenced by `FACE_ORIENTATIONS`/`FACE_VIEW_SEQUENCE`
in `src/components/RightPanel3DClient.tsx`). The static layout rectangles of
`BOX_FACE_CONFIG` (`lib/boxLayoutConfig`, not part of the sources here) are
carried as abstract environment data; no property below depends on their
values, and the constant label/material fields they contribute to each
`FaceTextureState` are dropped from the embedding since every operation
copies them unchanged. -/

/-- The six fixed box faces. -/
inductive BoxFaceKey
  | front
  | right
  | back
  | left
  | top
  | bottom
deriving DecidableEq

/-- `BOX_FACE_ORDER`. -/
def allFaceKeys : List BoxFaceKey :=
  [.front, .right, .back, .left, .top, .bottom]

/-- Per-face texture cache entry: raster payload (`null`able data URL) and
version counter. -/
structure FaceTextureState where
  dataUrl : Option String
  version : ℕ
deriving DecidableEq

/-- The `faces` record of the preview store. -/
def PreviewFaces := BoxFaceKey → FaceTextureState

/-- `createInitialFaces`: every face starts with no raster and version 0. -/
def createInitialFaces : PreviewFaces := fun _ => ⟨none, 0⟩

/-- A `Partial<Record<BoxFaceKey, string | null>>` argument: `none` = key
absent, `some none` = explicit `null` (or `undefined`, via `?? null`),
`some (some url)` = a data URL. -/
def FaceUpdates := BoxFaceKey → Option (Option String)

/-- `setFaceTextures` (`src/lib/dieline.ts`, preview store): returns the
state unchanged when the update record has no keys; otherwise each supplied
face short-circuits when its payload equals the current one and otherwise
stores the payload with the version bumped by exactly 1. (The source's
`hasChanges` flag only avoids allocating an identical record; pointwise the
result is the same.) -/
def setFaceTextures (updates : FaceUpdates) (faces : PreviewFaces) : PreviewFaces :=
  if List.all allFaceKeys (fun k => (updates k).isNone) then faces
  else fun k =>
    match updates k with
    | none => faces k
    | some dataUrl =>
      if (faces k).dataUrl = dataUrl then faces k
      else ⟨dataUrl, (faces k).version + 1⟩

/-- Sequential application of `setFaceTextures` calls. -/
def applyFaceTextureUpdates (us : List FaceUpdates) (faces : PreviewFaces) :
    PreviewFaces :=
  List.foldl (fun f u => setFaceTextures u f) faces us

/-- A face rectangle of `BOX_FACE_CONFIG` (dieline coordinates). -/
structure FaceRect where
  x : ℚ
  y : ℚ
  width : ℚ
  height : ℚ
deriving DecidableEq

/-- The environment a scheduled `updateFaceTextures` run reads
(`src/unnamed/part_003`, lines 583–681): stage/dieline/readiness guards, the
canvas rotation, the current scale, the face rectangles of
`BOX_FACE_CONFIG`, and the rasterization result `stage.toDataURL` would
produce for each face's on-screen rectangle. -/
structure SyncEnv where
  hasStage : Bool
  hasDieline : Bool
  isReady : Bool
  canvasRotation : ℚ
  effectiveScale : ℚ
  faceRect : BoxFaceKey → FaceRect
  capture : BoxFaceKey → String

/-- `updateFaceTextures`: returns without publishing when the stage, dieline
or readiness guard fails, or when the canvas rotation is not a multiple of
360°; otherwise builds one update entry per face (explicit `null` for a
degenerate on-screen rectangle, the captured data URL otherwise — so the
update record always has all six keys and the final emptiness check passes)
and publishes through `setFaceTextures`. -/
def updateFaceTextures (env : SyncEnv) (faces : PreviewFaces) : PreviewFaces :=
  if ¬ (env.hasStage && env.hasDieline && env.isReady) then faces
  else if jsRem env.canvasRotation 360 ≠ 0 then faces
  else
    let updates : FaceUpdates := fun k =>
      let stageWidth := (env.faceRect k).width * env.effectiveScale
      let stageHeight := (env.faceRect k).height * env.effectiveScale
      if stageWidth ≤ 0 ∨ stageHeight ≤ 0 then some none
      else some (some (env.capture k))
    setFaceTextures updates faces

/-! ## Geometry engine (`src/lib/dieline.ts`) -/

/-- The coordinate frame of a dieline document
(`Pick<DielineDocument, "x" | "y" | "width" | "height">`). -/
structure DielineFrame where
  x : ℚ
  y : ℚ
  width : ℚ
  height : ℚ
deriving DecidableEq

/-- An axis-aligned node rectangle (`RectBounds`). -/
structure RectBounds where
  x : ℚ
  y : ℚ
  width : ℚ
  height : ℚ
deriving DecidableEq

/-- `isInsideDieline`: a degenerate rect (zero or negative width/height) is
vacuously inside; otherwise all four edges must lie within the dieline
bounds. -/
def isInsideDieline (dieline : DielineFrame) (nodeBounds : RectBounds) : Bool :=
  if nodeBounds.width ≤ 0 ∨ nodeBounds.height ≤ 0 then true
  else
    decide (dieline.x ≤ nodeBounds.x) &&
    decide (dieline.y ≤ nodeBounds.y) &&
    decide (nodeBounds.x + nodeBounds.width ≤ dieline.x + dieline.width) &&
    decide (nodeBounds.y + nodeBounds.height ≤ dieline.y + dieline.height)

/-! ## Text layout engine (`src/lib/dieline.ts`, measurement section)

The engine is embedded in its headless form (`getMeasureContext()` returns
`null` when no `document` exists): every glyph measures
`fontSize * 0.6` wide and `fontSize` tall. Real-number trigonometry makes
these definitions noncomputable; branch conditions on reals use classical
decidability. -/

/-- `FALLBACK_LETTER_WIDTH_RATIO = 0.6`. -/
noncomputable def letterWidthFactor : ℝ := 3/5

/-- Result of `measureStraightText`. -/
structure StraightTextMetrics where
  width : ℝ
  height : ℝ

/-- `measureStraightText`, headless branch:
`max(len,1) * fontSize * 0.6 + max(len-1,0) * letterSpacing` wide,
`fontSize` tall. -/
noncomputable def measureStraightText (text : List Char)
    (fontSize letterSpacing : ℝ) : StraightTextMetrics :=
  ⟨(max text.length 1 : ℕ) * fontSize * letterWidthFactor
      + (text.length - 1 : ℕ) * letterSpacing,
    fontSize⟩

/-- A laid-out glyph of the curved layout. -/
structure CurvedGlyph where
  char : Char
  x : ℝ
  y : ℝ
  rotation : ℝ
  width : ℝ
  height : ℝ

/-- Result of `computeCurvedTextLayout`. -/
structure CurvedTextLayout where
  glyphs : List CurvedGlyph
  width : ℝ
  height : ℝ

/-- `reduce(min, +Infinity)` over a list: on a nonempty list this is the
least element (the embedding is only applied to nonempty glyph lists). -/
noncomputable def listMin : List ℝ → ℝ
  | [] => 0
  | a :: rest => List.foldl min a rest

/-- `reduce(max, -Infinity)` over a list: on a nonempty list this is the
greatest element. -/
noncomputable def listMax : List ℝ → ℝ
  | [] => 0
  | a :: rest => List.foldl max a rest

/-- The per-glyph width list of the curved layout (headless measurement):
each glyph is `fontSize * 0.6` wide plus the letter spacing, except the
last. -/
noncomputable def curvedWidths (n : ℕ) (fontSize letterSpacing : ℝ) : List ℝ :=
  (List.range n).map (fun i =>
    fontSize * letterWidthFactor + (if i < n - 1 then letterSpacing else 0))

open Classical in
/-- One raw (pre-recentering) glyph of the curved layout. `progressedAngle`
is the loop's accumulator written as the sum of the preceding per-glyph
angles. -/
noncomputable def curvedGlyphRaw (text : List Char) (n : ℕ) (widths : List ℝ)
    (letterSpacing pxToAngle startAngle r angleRad glyphHeight : ℝ)
    (i : ℕ) : CurvedGlyph :=
  let widthWithSpacing := widths.getD i 0
  let charAngle := widthWithSpacing * pxToAngle
  let progressedAngle := ((widths.take i).map (fun w => w * pxToAngle)).sum
  let positionAngle := startAngle + progressedAngle + charAngle / 2
  let gx := r * Real.cos positionAngle
  let gy := r * Real.sin positionAngle
  let charWidth := widthWithSpacing - (if i < n - 1 then letterSpacing else 0)
  let grot := positionAngle * 180 / Real.pi + (if 0 ≤ angleRad then 90 else -90)
  ⟨text.getD i ' ', gx, gy, grot, charWidth, glyphHeight⟩

/-- The recentering suffix of `computeCurvedTextLayout`: shifts the raw
glyph set so its bounding box is centered at the origin and reports the
box's extents as the layout's width/height. -/
noncomputable def recenterGlyphs (glyphsRaw : List CurvedGlyph) : CurvedTextLayout :=
  let minX := listMin (glyphsRaw.map (fun g => g.x - g.width / 2))
  let maxX := listMax (glyphsRaw.map (fun g => g.x + g.width / 2))
  let minY := listMin (glyphsRaw.map (fun g => g.y - g.height / 2))
  let maxY := listMax (glyphsRaw.map (fun g => g.y + g.height / 2))
  let centerX := (minX + maxX) / 2
  let centerY := (minY + maxY) / 2
  ⟨glyphsRaw.map (fun g => { g with x := g.x - centerX, y := g.y - centerY }),
    maxX - minX, maxY - minY⟩

open Classical in
/-- `computeCurvedTextLayout` (headless branch): distributes the glyphs of
`text` along an arc of signed radius `radius`, total angle `angle` degrees
(derived from `totalWidth / radius` when `angle = 0`), centered around
`startAngle = -angleRad/2`; then recenters the glyph set so its bounding box
is centered at the origin and reports that box's extents. An empty string
yields an empty glyph list with width = height = `max fontSize 1`. -/
noncomputable def computeCurvedTextLayout (text : List Char)
    (fontSize letterSpacing radius angle : ℝ) : CurvedTextLayout :=
  let safeRadius := max 1 |radius|
  let radiusDirection : ℝ := if 0 ≤ radius then 1 else -1
  if text.isEmpty then
    ⟨[], max fontSize 1, max fontSize 1⟩
  else
    let n := text.length
    let widths := curvedWidths n fontSize letterSpacing
    let glyphHeight := fontSize
    let totalWidth := widths.sum
    let angleRad :=
      if angle = 0 then totalWidth / safeRadius else angle * Real.pi / 180
    let pxToAngle := if totalWidth = 0 then 0 else angleRad / totalWidth
    let startAngle := -angleRad / 2
    let r := safeRadius * radiusDirection
    recenterGlyphs ((List.range n).map
      (curvedGlyphRaw text n widths letterSpacing pxToAngle startAngle r
        angleRad glyphHeight))

/-- A JS number as handled by `withUpdatedTextMetrics`: finite values live in
`ℝ`; `NaN` and the two infinities are the non-finite values
`Number.isFinite` rejects. -/
inductive JsNum
  | num (x : ℝ)
  | nan
  | posInf
  | negInf

/-- `Number.isFinite`. -/
def JsNum.isFinite : JsNum → Bool
  | .num _ => true
  | _ => false

/-- JS `<= 0` comparison (false on `NaN`). -/
def JsNum.leZero : JsNum → Prop
  | .num x => x ≤ 0
  | .negInf => True
  | _ => False

/-- JS falsiness of a number (`0`, `-0` and `NaN` are falsy). -/
def JsNum.isFalsy (n : JsNum) : Prop := n = .nan ∨ n = .num 0

/-- `Math.max` on two numbers (`NaN` propagates). -/
noncomputable def JsNum.jsMax : JsNum → JsNum → JsNum
  | .nan, _ => .nan
  | _, .nan => .nan
  | .num a, .num b => .num (max a b)
  | .posInf, _ => .posInf
  | _, .posInf => .posInf
  | .negInf, b => b
  | a, .negInf => a

open Classical in
/-- JS `a || b` on numbers. -/
noncomputable def jsOrNum (a b : JsNum) : JsNum := if a.isFalsy then b else a

/-- The finite value of a `JsNum` (only meaningful on finite values; the
layout calls below only ever receive finite values under the repair
guarantees proven in this file). -/
def JsNum.toReal : JsNum → ℝ
  | .num x => x
  | _ => 0

/-- `TextNodeData` (`src/lib/store.ts`): numeric fields as JS numbers. -/
structure TextNodeData where
  text : List Char
  x : JsNum
  y : JsNum
  rotation : JsNum
  fontFamily : String
  fontSize : JsNum
  fontWeight : String
  fill : String
  letterSpacing : JsNum
  isCurved : Bool
  radius : JsNum
  angle : JsNum
  width : JsNum
  height : JsNum
  opacity : Option JsNum
  lockAspectRatio : Option Bool

/-- A `Partial<TextNodeData>` update (`none` = field absent). -/
structure TextNodeUpdates where
  text : Option (List Char)
  x : Option JsNum
  y : Option JsNum
  rotation : Option JsNum
  fontFamily : Option String
  fontSize : Option JsNum
  fontWeight : Option String
  fill : Option String
  letterSpacing : Option JsNum
  isCurved : Option Bool
  radius : Option JsNum
  angle : Option JsNum
  width : Option JsNum
  height : Option JsNum
  opacity : Option (Option JsNum)
  lockAspectRatio : Option (Option Bool)

/-- The update record with no fields present. -/
def noTextUpdates : TextNodeUpdates :=
  ⟨none, none, none, none, none, none, none, none, none, none, none, none,
    none, none, none, none⟩

/-- Object spread `{...data, ...updates}` on a text node's data. -/
def mergeText (data : TextNodeData) (u : TextNodeUpdates) : TextNodeData :=
  { text := u.text.getD data.text
    x := u.x.getD data.x
    y := u.y.getD data.y
    rotation := u.rotation.getD data.rotation
    fontFamily := u.fontFamily.getD data.fontFamily
    fontSize := u.fontSize.getD data.fontSize
    fontWeight := u.fontWeight.getD data.fontWeight
    fill := u.fill.getD data.fill
    letterSpacing := u.letterSpacing.getD data.letterSpacing
    isCurved := u.isCurved.getD data.isCurved
    radius := u.radius.getD data.radius
    angle := u.angle.getD data.angle
    width := u.width.getD data.width
    height := u.height.getD data.height
    opacity := u.opacity.getD data.opacity
    lockAspectRatio := u.lockAspectRatio.getD data.lockAspectRatio }

open Classical in
/-- The first repair block of `withUpdatedTextMetrics`: a non-finite or
non-positive merged `fontSize` becomes `Math.max(12, data.fontSize)`. -/
noncomputable def repairFontSize (data next : TextNodeData) : TextNodeData :=
  if next.fontSize.isFinite = false ∨ next.fontSize.leZero then
    { next with fontSize := JsNum.jsMax (.num 12) data.fontSize }
  else next

/-- The second repair block: a non-finite merged `letterSpacing` reverts to
`data.letterSpacing`. -/
def repairLetterSpacing (data next : TextNodeData) : TextNodeData :=
  if next.letterSpacing.isFinite = false then
    { next with letterSpacing := data.letterSpacing }
  else next

open Classical in
/-- The third repair block: a non-finite or zero merged `radius` becomes
`data.radius || 150`. -/
noncomputable def repairRadius (data next : TextNodeData) : TextNodeData :=
  if next.radius.isFinite = false ∨ next.radius = .num 0 then
    { next with radius := jsOrNum data.radius (.num 150) }
  else next

/-- The fourth repair block: a non-finite merged `angle` reverts to
`data.angle`. -/
def repairAngle (data next : TextNodeData) : TextNodeData :=
  if next.angle.isFinite = false then { next with angle := data.angle }
  else next

/-- The merge-and-repair prefix of `withUpdatedTextMetrics`: the four
sequential repair blocks applied to `{...data, ...updates}`. -/
noncomputable def repairTextNumbers (data : TextNodeData)
    (updates : TextNodeUpdates) : TextNodeData :=
  repairAngle data (repairRadius data
    (repairLetterSpacing data (repairFontSize data (mergeText data updates))))

open Classical in
/-- `withUpdatedTextMetrics(data, updates)`: merges the update, repairs
`fontSize` (non-finite or ≤ 0 becomes `max(12, data.fontSize)`),
`letterSpacing` and `angle` (non-finite revert to the previous value) and
`radius` (non-finite or zero becomes `data.radius || 150`), then recomputes
the `width`/`height` cache via the curved or straight layout (a zero layout
extent falls back to `max(fontSize, 1)`). The function is total: malformed
numeric input is repaired, never propagated as an exception. -/
noncomputable def withUpdatedTextMetrics (data : TextNodeData)
    (updates : TextNodeUpdates) : TextNodeData :=
  let next := repairTextNumbers data updates
  if next.isCurved then
    let layout := computeCurvedTextLayout next.text next.fontSize.toReal
      next.letterSpacing.toReal next.radius.toReal next.angle.toReal
    { next with
      width := .num (if layout.width = 0 then max next.fontSize.toReal 1
        else layout.width)
      height := .num (if layout.height = 0 then max next.fontSize.toReal 1
        else layout.height) }
  else
    let metrics := measureStraightText next.text next.fontSize.toReal
      next.letterSpacing.toReal
    { next with
      width := .num (if metrics.width = 0 then max next.fontSize.toReal 1
        else metrics.width)
      height := .num (if metrics.height = 0 then max next.fontSize.toReal 1
        else metrics.height) }

/-! ## Concrete sample data (used by witnesses and counterexamples) -/

/-- A sample image node. -/
def sampleNode : Node := ⟨"a", "image", some [("x", .num 0)]⟩

/-- The store state right after adding `sampleNode` to a fresh session:
one node, empty selection, one history entry. -/
def sampleState : DocState := applyEdit (.addNode sampleNode) initialState

/-- `sampleState` after one `undo`: empty node collection, empty `past`,
nonempty `future`. -/
def sampleUndone : DocState := undo sampleState

/-- A state sitting at the maximal zoom. -/
def zoomMaxState : DocState := { initialState with zoom := 5/2 }

/-- A face-texture update that supplies a raster for the front face only. -/
def sampleFaceUpdates : FaceUpdates := fun k =>
  match k with
  | .front => some (some "data-front-1")
  | _ => none

/-- A synchronization environment whose canvas rotation is 90°. -/
def sampleSyncEnv : SyncEnv :=
  { hasStage := true
    hasDieline := true
    isReady := true
    canvasRotation := 90
    effectiveScale := 1
    faceRect := fun _ => ⟨0, 0, 100, 100⟩
    capture := fun _ => "captured" }

/-- A sample dieline frame. -/
def sampleDieline : DielineFrame := ⟨0, 0, 100, 100⟩

/-- A rect fully inside `sampleDieline`. -/
def sampleRect : RectBounds := ⟨10, 10, 20, 20⟩

/-- A sample straight text node datum with healthy numeric fields. -/
noncomputable def sampleTextData : TextNodeData :=
  { text := ['h', 'i']
    x := .num 0
    y := .num 0
    rotation := .num 0
    fontFamily := "Arial"
    fontSize := .num 20
    fontWeight := "400"
    fill := "#000000"
    letterSpacing := .num 2
    isCurved := false
    radius := .num 150
    angle := .num 0
    width := .num 0
    height := .num 0
    opacity := none
    lockAspectRatio := none }

/-- An update that supplies a `NaN` font size and an infinite letter
spacing. -/
def sampleTextUpdates : TextNodeUpdates :=
  { noTextUpdates with fontSize := some .nan, letterSpacing := some .posInf }

/-! ## Helper lemmas -/

lemma cloneNodes_id (ns : List Node) : cloneNodes ns = ns := by
  induction ns with
  | nil => rfl
  | cons a t ih => simpa [cloneNodes, cloneNode] using ih

lemma undo_of_past_concat (t : DocState) (l : List (List Node))
    (v : List Node) (h : t.past = l ++ [v]) :
    (undo t).nodes = v ∧ (undo t).past = l := by
  have hne : t.past.isEmpty = false := by
    rw [h]; simp
  constructor <;>
    simp [undo, hne, h, cloneNodes_id, List.getLastD_eq_getLast?,
      List.getLast?_concat, List.dropLast_concat]

lemma undoN_succ_eq (k : ℕ) (s : DocState) :
    undoN (k + 1) s = undo (undoN k s) := rfl

lemma undoN_restores (ops : List EditOp) (s : DocState)
    (h : allEffective ops s) :
    (undoN ops.length (applyEdits ops s)).nodes = s.nodes ∧
    (undoN ops.length (applyEdits ops s)).past = s.past := by
  induction ops generalizing s with
  | nil => exact ⟨rfl, rfl⟩
  | cons op rest ih =>
    obtain ⟨hpush, hrest⟩ := h
    have hih := ih (applyEdit op s) hrest
    have happ : applyEdits (op :: rest) s = applyEdits rest (applyEdit op s) := rfl
    have hlen : (op :: rest).length = rest.length + 1 := rfl
    rw [happ, hlen, undoN_succ_eq]
    have hpast :
        (undoN rest.length (applyEdits rest (applyEdit op s))).past
          = s.past ++ [s.nodes] := hih.2.trans hpush
    exact ⟨(undo_of_past_concat _ _ _ hpast).1, (undo_of_past_concat _ _ _ hpast).2⟩

lemma edit_noop_or_commits (op : EditOp) (s : DocState) :
    applyEdit op s = s ∨
    ((applyEdit op s).future = [] ∧
      (applyEdit op s).past = s.past ++ [s.nodes]) := by
  cases op with
  | setNodes ns =>
    right; exact ⟨rfl, by simp [applyEdit, setNodes, cloneNodes_id]⟩
  | addNode n =>
    right; exact ⟨rfl, by simp [applyEdit, addNode, cloneNodes_id]⟩
  | deleteSelection =>
    simp only [applyEdit, deleteSelection]
    split_ifs with h1 h2
    · exact Or.inl rfl
    · exact Or.inl rfl
    · exact Or.inr ⟨rfl, by simp [cloneNodes_id]⟩
  | updateNodeCommit nodeId updates =>
    cases heq : applyUpdateToNodes nodeId updates s.nodes with
    | none => exact Or.inl (by simp [applyEdit, updateNode, heq])
    | some nn =>
      right
      constructor <;> simp [applyEdit, updateNode, heq, cloneNodes_id]
  | rotateSelectionClockwise =>
    simp only [applyEdit, rotateSelectionClockwise]
    split_ifs with h1 h2
    · exact Or.inl rfl
    · exact Or.inr ⟨rfl, by simp [cloneNodes_id]⟩
    · exact Or.inl rfl
  | bringSelectionToFront =>
    simp only [applyEdit, bringSelectionToFront]
    split_ifs with h1 h2 h3
    · exact Or.inl rfl
    · exact Or.inl rfl
    · exact Or.inl rfl
    · exact Or.inr ⟨rfl, by simp [cloneNodes_id]⟩
  | sendSelectionBackward =>
    simp only [applyEdit, sendSelectionBackward]
    split_ifs with h1 h2 h3
    · exact Or.inl rfl
    · exact Or.inl rfl
    · exact Or.inl rfl
    · exact Or.inr ⟨rfl, by simp [cloneNodes_id]⟩

lemma pushes_future_nil (op : EditOp) (s : DocState) (h : pushes op s) :
    (applyEdit op s).future = [] := by
  rcases edit_noop_or_commits op s with h0 | h0
  · exfalso
    unfold pushes at h
    rw [h0] at h
    simp at h
  · exact h0.1

lemma redo_future_nil (t : DocState) (h : t.future = []) : redo t = t := by
  simp [redo, h]

lemma applyNCs_preserves_history (nodeId : String) (us : List NodeData)
    (s : DocState) :
    (applyNCs nodeId us s).past = s.past ∧
    (applyNCs nodeId us s).future = s.future := by
  induction us generalizing s with
  | nil => exact ⟨rfl, rfl⟩
  | cons u rest ih =>
    have hstep :
        (updateNode nodeId u false s).past = s.past ∧
        (updateNode nodeId u false s).future = s.future := by
      unfold updateNode
      cases h : applyUpdateToNodes nodeId u s.nodes <;> simp [h]
    have hcons :
        applyNCs nodeId (u :: rest) s
          = applyNCs nodeId rest (updateNode nodeId u false s) := rfl
    rw [hcons]
    exact ⟨((ih _).1).trans hstep.1, ((ih _).2).trans hstep.2⟩

lemma normalizeZoom_in_range (q : ℚ) :
    1/2 ≤ normalizeZoom q ∧ normalizeZoom q ≤ 5/2 ∧
    ∃ n : ℤ, normalizeZoom q = (n : ℚ)/100 := by
  unfold normalizeZoom
  refine ⟨le_min (by norm_num) (le_max_left _ _), min_le_left _ _, ?_⟩
  rcases min_choice (5/2 : ℚ) (max (1/2) ((jsRound (q * 100) : ℚ) / 100)) with h | h
  · exact ⟨250, by rw [h]; norm_num⟩
  · rcases max_choice (1/2 : ℚ) ((jsRound (q * 100) : ℚ) / 100) with h2 | h2
    · exact ⟨50, by rw [h, h2]; norm_num⟩
    · exact ⟨jsRound (q * 100), by rw [h, h2]⟩

lemma zoomOps_in_range (ops : List ZoomOp) (s : DocState)
    (h : 1/2 ≤ s.zoom ∧ s.zoom ≤ 5/2 ∧ ∃ n : ℤ, s.zoom = (n : ℚ)/100) :
    1/2 ≤ (applyZoomOps ops s).zoom ∧ (applyZoomOps ops s).zoom ≤ 5/2 ∧
    ∃ n : ℤ, (applyZoomOps ops s).zoom = (n : ℚ)/100 := by
  induction ops generalizing s with
  | nil => exact h
  | cons op rest ih =>
    refine ih (applyZoomOp op s) ?_
    cases op with
    | setZ q =>
      simp only [applyZoomOp, setZoom]
      split_ifs with hc
      · exact h
      · exact normalizeZoom_in_range q
    | inc =>
      simp only [applyZoomOp, zoomIn]
      split_ifs with hc
      · exact h
      · exact normalizeZoom_in_range (s.zoom + 1/10)
    | dec =>
      simp only [applyZoomOp, zoomOut]
      split_ifs with hc
      · exact h
      · exact normalizeZoom_in_range (s.zoom - 1/10)
    | reset =>
      simp only [applyZoomOp, resetZoom]
      exact ⟨by norm_num, by norm_num, 100, by norm_num⟩

lemma mem_allFaceKeys (k : BoxFaceKey) : k ∈ allFaceKeys := by
  cases k <;> simp [allFaceKeys]

lemma setFaceTextures_version_le (u : FaceUpdates) (faces : PreviewFaces)
    (k : BoxFaceKey) :
    (faces k).version ≤ (setFaceTextures u faces k).version := by
  unfold setFaceTextures
  split_ifs with hall
  · exact le_refl _
  · cases hu : u k with
    | none => simp [hu]
    | some p =>
      simp only [hu]
      split_ifs with hd
      · exact le_refl _
      · exact Nat.le_succ _

lemma applyFaceTextureUpdates_version_le (us : List FaceUpdates)
    (faces : PreviewFaces) (k : BoxFaceKey) :
    (faces k).version ≤ (applyFaceTextureUpdates us faces k).version := by
  induction us generalizing faces with
  | nil => exact le_refl _
  | cons u rest ih =>
    exact le_trans (setFaceTextures_version_le u faces k)
      (ih (setFaceTextures u faces))

/-! ## Claim theorems -/

/-- C1 (amended): for every initial document state and every sequence of
committing edits each of which actually pushes a history entry (is not
returned as a no-op), applying `undo` once per edit afterwards returns the
node collection to exactly its value before the first edit. -/
theorem commits_then_undos_restore_nodes (ops : List EditOp) (s : DocState)
    (h : allEffective ops s) :
    (undoN ops.length (applyEdits ops s)).nodes = s.nodes :=
  (undoN_restores ops s h).1

/-- Witness for C1's theorem: one effective `setNodes []` edit on
`sampleState`, undone once, restores the node collection. -/
theorem commits_then_undos_restore_nodes_witness :
    allEffective [EditOp.setNodes []] sampleState ∧
    (undoN 1 (applyEdits [EditOp.setNodes []] sampleState)).nodes
      = sampleState.nodes :=
  ⟨by decide, commits_then_undos_restore_nodes [EditOp.setNodes []] sampleState (by decide)⟩

/-- C1 counterexample to the claim as stated: from the reachable state
`sampleState` (one node, empty selection, one history entry), the committing
edit `deleteSelection` is a no-op (empty selection) and pushes nothing, so
one edit followed by one undo pops an older snapshot instead of restoring
the pre-edit collection. -/
theorem commits_then_undos_claim_counterexample :
    (undoN 1 (applyEdits [EditOp.deleteSelection] sampleState)).nodes
      ≠ sampleState.nodes := by decide

/-- C2 (amended): when `past` is nonempty, `undo` immediately followed by
`redo` reproduces the node collection exactly; and any committing edit after
an `undo` that actually pushes a history entry clears `future`, making a
subsequent `redo` a no-op (it returns the state unchanged). -/
theorem undo_redo_roundtrip (s : DocState) (op : EditOp) :
    (s.past ≠ [] → (redo (undo s)).nodes = s.nodes) ∧
    (pushes op (undo s) →
      (applyEdit op (undo s)).future = [] ∧
      redo (applyEdit op (undo s)) = applyEdit op (undo s)) := by
  constructor
  · intro hne
    have hE : s.past.isEmpty = false := by
      cases h' : s.past with
      | nil => exact absurd h' hne
      | cons a t => rfl
    simp [undo, hE, redo, cloneNodes_id]
  · intro hp
    exact ⟨pushes_future_nil op _ hp,
      redo_future_nil _ (pushes_future_nil op _ hp)⟩

/-- Witness for C2's theorem at `sampleState` (nonempty `past`) and an
effective `addNode` edit after the undo. -/
theorem undo_redo_roundtrip_witness :
    sampleState.past ≠ [] ∧
    (redo (undo sampleState)).nodes = sampleState.nodes ∧
    pushes (EditOp.addNode sampleNode) (undo sampleState) ∧
    redo (applyEdit (EditOp.addNode sampleNode) (undo sampleState))
      = applyEdit (EditOp.addNode sampleNode) (undo sampleState) :=
  ⟨by decide,
    (undo_redo_roundtrip sampleState (.addNode sampleNode)).1 (by decide),
    by decide,
    ((undo_redo_roundtrip sampleState (.addNode sampleNode)).2 (by decide)).2⟩

/-- C2 counterexample to the claim as stated: in the reachable state
`sampleUndone` (`past` empty, `future` nonempty), `undo` is a no-op, and the
following `redo` replaces the node collection with the future snapshot, so
undo-then-redo does not reproduce the node collection. -/
theorem undo_redo_claim_counterexample :
    (redo (undo sampleUndone)).nodes ≠ sampleUndone.nodes := by decide

/-- C3 (amended): `updateNode` with `commit:false` any number of times
pushes nothing onto `past`; a following `commit:true` call that actually
changes the node's data pushes exactly one entry, and that entry is the node
collection immediately before the committing call — i.e. after the
non-committing updates, not the pre-drag snapshot. -/
theorem updateNode_commit_single_entry (s : DocState) (nodeId : String)
    (us : List NodeData) (u : NodeData)
    (heff : (applyUpdateToNodes nodeId u (applyNCs nodeId us s).nodes).isSome
      = true) :
    (applyNCs nodeId us s).past = s.past ∧
    (updateNode nodeId u true (applyNCs nodeId us s)).past
      = s.past ++ [(applyNCs nodeId us s).nodes] := by
  refine ⟨(applyNCs_preserves_history nodeId us s).1, ?_⟩
  obtain ⟨nn, hnn⟩ := Option.isSome_iff_exists.mp heff
  unfold updateNode
  simp [hnn, cloneNodes_id, (applyNCs_preserves_history nodeId us s).1]

/-- Witness for C3's theorem: one non-committing update (`x := 1`) on
`sampleState` followed by a committing update (`x := 2`). -/
theorem updateNode_commit_single_entry_witness :
    (applyUpdateToNodes "a" [("x", Val.num 2)]
      (applyNCs "a" [[("x", Val.num 1)]] sampleState).nodes).isSome = true ∧
    (updateNode "a" [("x", Val.num 2)] true
        (applyNCs "a" [[("x", Val.num 1)]] sampleState)).past
      = sampleState.past ++ [(applyNCs "a" [[("x", Val.num 1)]] sampleState).nodes] :=
  ⟨by decide,
    (updateNode_commit_single_entry sampleState "a" [[("x", Val.num 1)]]
      [("x", Val.num 2)] (by decide)).2⟩

/-- C3 counterexample to the claim as stated: after a non-committing update
`x := 1` on `sampleState` and a committing update `x := 2`, the single
history entry is the post-drag collection (`x = 1`), not the pre-drag
snapshot (`x = 0`). -/
theorem updateNode_commit_claim_counterexample :
    (updateNode "a" [("x", Val.num 2)] true
        (applyNCs "a" [[("x", Val.num 1)]] sampleState)).past
      ≠ sampleState.past ++ [sampleState.nodes] := by decide

/-- C8: every zoom setter stores `min(2.5, max(0.5, value rounded to two
decimal places))`, a setter whose normalized value equals the current zoom
returns the state unchanged, and starting from zoom 1 any sequence of zoom
operations keeps the zoom in `[0.5, 2.5]` with at most two decimal places
(an integer multiple of 1/100). -/
theorem zoom_setters_clamp_and_round :
    (∀ (s : DocState) (z : ℚ),
      (setZoom z s).zoom
        = min (5/2) (max (1/2) ((jsRound (z * 100) : ℚ) / 100)) ∧
      (zoomIn s).zoom
        = min (5/2) (max (1/2) ((jsRound ((s.zoom + 1/10) * 100) : ℚ) / 100)) ∧
      (zoomOut s).zoom
        = min (5/2) (max (1/2) ((jsRound ((s.zoom - 1/10) * 100) : ℚ) / 100)) ∧
      (normalizeZoom z = s.zoom → setZoom z s = s) ∧
      (normalizeZoom (s.zoom + 1/10) = s.zoom → zoomIn s = s) ∧
      (normalizeZoom (s.zoom - 1/10) = s.zoom → zoomOut s = s)) ∧
    (∀ (ops : List ZoomOp) (s : DocState), s.zoom = 1 →
      1/2 ≤ (applyZoomOps ops s).zoom ∧ (applyZoomOps ops s).zoom ≤ 5/2 ∧
      ∃ n : ℤ, (applyZoomOps ops s).zoom = (n : ℚ) / 100) := by
  constructor
  · intro s z
    refine ⟨?_, ?_, ?_, ?_, ?_, ?_⟩
    · simp only [setZoom]
      split_ifs with hc
      · exact hc.symm
      · rfl
    · simp only [zoomIn]
      split_ifs with hc
      · exact hc.symm
      · rfl
    · simp only [zoomOut]
      split_ifs with hc
      · exact hc.symm
      · rfl
    · intro hc
      simp only [setZoom]
      rw [if_pos hc]
    · intro hc
      simp only [zoomIn]
      rw [if_pos hc]
    · intro hc
      simp only [zoomOut]
      rw [if_pos hc]
  · intro ops s hs
    exact zoomOps_in_range ops s ⟨by rw [hs]; norm_num, by rw [hs]; norm_num,
      ⟨100, by rw [hs]; norm_num⟩⟩

/-- Witness for C8's theorem: `setZoom 3` clamps to 2.5 on the initial
state; `zoomIn` at the maximal zoom is a no-op; a sample operation sequence
from zoom 1 stays in range. -/
theorem zoom_setters_clamp_and_round_witness :
    (setZoom 3 initialState).zoom = 5/2 ∧
    zoomIn zoomMaxState = zoomMaxState ∧
    (1/2 ≤ (applyZoomOps [ZoomOp.inc, ZoomOp.setZ 7] initialState).zoom ∧
      (applyZoomOps [ZoomOp.inc, ZoomOp.setZ 7] initialState).zoom ≤ 5/2 ∧
      ∃ n : ℤ,
        (applyZoomOps [ZoomOp.inc, ZoomOp.setZ 7] initialState).zoom
          = (n : ℚ) / 100) :=
  ⟨((zoom_setters_clamp_and_round.1 initialState 3).1).trans
      (by norm_num [jsRound]),
    (zoom_setters_clamp_and_round.1 zoomMaxState 0).2.2.2.2.1
      (by norm_num [normalizeZoom, jsRound, zoomMaxState, initialState]),
    zoom_setters_clamp_and_round.2 [ZoomOp.inc, ZoomOp.setZ 7] initialState rfl⟩

/-- C10: the view-level setters `setZoom`, `zoomIn`, `zoomOut`, `resetZoom`,
`setRotation`, `rotateCanvasLeft` and `rotateCanvasRight` never modify the
nodes array, the selection, or the past/future history stacks. -/
theorem view_setters_preserve_scene (s : DocState) (z r : ℚ) :
    ((setZoom z s).nodes = s.nodes ∧ (setZoom z s).selection = s.selection ∧
      (setZoom z s).past = s.past ∧ (setZoom z s).future = s.future) ∧
    ((zoomIn s).nodes = s.nodes ∧ (zoomIn s).selection = s.selection ∧
      (zoomIn s).past = s.past ∧ (zoomIn s).future = s.future) ∧
    ((zoomOut s).nodes = s.nodes ∧ (zoomOut s).selection = s.selection ∧
      (zoomOut s).past = s.past ∧ (zoomOut s).future = s.future) ∧
    ((resetZoom s).nodes = s.nodes ∧ (resetZoom s).selection = s.selection ∧
      (resetZoom s).past = s.past ∧ (resetZoom s).future = s.future) ∧
    ((setRotation r s).nodes = s.nodes ∧
      (setRotation r s).selection = s.selection ∧
      (setRotation r s).past = s.past ∧ (setRotation r s).future = s.future) ∧
    ((rotateCanvasLeft s).nodes = s.nodes ∧
      (rotateCanvasLeft s).selection = s.selection ∧
      (rotateCanvasLeft s).past = s.past ∧
      (rotateCanvasLeft s).future = s.future) ∧
    ((rotateCanvasRight s).nodes = s.nodes ∧
      (rotateCanvasRight s).selection = s.selection ∧
      (rotateCanvasRight s).past = s.past ∧
      (rotateCanvasRight s).future = s.future) := by
  simp only [setZoom, zoomIn, zoomOut, resetZoom, setRotation,
    rotateCanvasLeft, rotateCanvasRight]
  refine ⟨⟨?_, ?_, ?_, ?_⟩, ⟨?_, ?_, ?_, ?_⟩, ⟨?_, ?_, ?_, ?_⟩,
    ⟨?_, ?_, ?_, ?_⟩, ⟨?_, ?_, ?_, ?_⟩, ⟨?_, ?_, ?_, ?_⟩,
    ⟨?_, ?_, ?_, ?_⟩⟩ <;>
    first
      | rfl
      | trivial
      | (split <;> rfl)

/-- C4: for every `setFaceTextures` call and face key, an absent key leaves
the face untouched; a supplied payload equal to the current one leaves the
face untouched; a differing payload (including to or from `null`) stores it
and increments the version by exactly 1; repeating the identical update is a
no-op; and a face's version is non-decreasing over any sequence of
`setFaceTextures` calls. -/
theorem setFaceTextures_spec (faces : PreviewFaces) (u : FaceUpdates)
    (k : BoxFaceKey) :
    (u k = none → setFaceTextures u faces k = faces k) ∧
    (∀ p, u k = some p → (faces k).dataUrl = p →
      setFaceTextures u faces k = faces k) ∧
    (∀ p, u k = some p → (faces k).dataUrl ≠ p →
      (setFaceTextures u faces k).dataUrl = p ∧
      (setFaceTextures u faces k).version = (faces k).version + 1) ∧
    setFaceTextures u (setFaceTextures u faces) k = setFaceTextures u faces k ∧
    (∀ us : List FaceUpdates,
      (faces k).version ≤ (applyFaceTextureUpdates us faces k).version) := by
  by_cases hall : List.all allFaceKeys (fun k => (u k).isNone) = true
  · have hk : u k = none := by
      have := List.all_eq_true.mp hall k (mem_allFaceKeys k)
      simpa [Option.isNone_iff_eq_none] using this
    refine ⟨fun _ => ?_, fun p hp _ => ?_, fun p hp _ => ?_, ?_, ?_⟩
    · simp [setFaceTextures, hall]
    · rw [hk] at hp; cases hp
    · rw [hk] at hp; cases hp
    · simp [setFaceTextures, hall]
    · exact fun us => applyFaceTextureUpdates_version_le us faces k
  · refine ⟨fun hk => ?_, fun p hp hd => ?_, fun p hp hd => ?_, ?_, ?_⟩
    · simp [setFaceTextures, hall, hk]
    · simp [setFaceTextures, hall, hp, hd]
    · constructor <;> simp [setFaceTextures, hall, hp, hd]
    · cases hu : u k with
      | none => simp [setFaceTextures, hall, hu]
      | some p =>
        by_cases hd : (faces k).dataUrl = p
        · simp [setFaceTextures, hall, hu, hd]
        · have h1 : setFaceTextures u faces k = ⟨p, (faces k).version + 1⟩ := by
            simp [setFaceTextures, hall, hu, hd]
          simp [setFaceTextures, hall, hu, hd, h1]
    · exact fun us => applyFaceTextureUpdates_version_le us faces k

/-- Witness for C4's theorem: supplying a raster for the empty front face
stores it with version 1. -/
theorem setFaceTextures_spec_witness :
    sampleFaceUpdates BoxFaceKey.front = some (some "data-front-1") ∧
    (createInitialFaces BoxFaceKey.front).dataUrl ≠ some "data-front-1" ∧
    (setFaceTextures sampleFaceUpdates createInitialFaces
        BoxFaceKey.front).dataUrl = some "data-front-1" ∧
    (setFaceTextures sampleFaceUpdates createInitialFaces
        BoxFaceKey.front).version
      = (createInitialFaces BoxFaceKey.front).version + 1 :=
  ⟨rfl, by decide,
    ((setFaceTextures_spec createInitialFaces sampleFaceUpdates .front).2.2.1
      (some "data-front-1") rfl (by decide)).1,
    ((setFaceTextures_spec createInitialFaces sampleFaceUpdates .front).2.2.1
      (some "data-front-1") rfl (by decide)).2⟩

/-- C5: whenever the canvas rotation is not a multiple of 360° (its JS
remainder by 360 is nonzero), a scheduled `updateFaceTextures` run publishes
nothing: every face's payload and version are unchanged. -/
theorem updateFaceTextures_skips_when_rotated (env : SyncEnv)
    (faces : PreviewFaces) (h : jsRem env.canvasRotation 360 ≠ 0) :
    ∀ k, updateFaceTextures env faces k = faces k := by
  intro k
  unfold updateFaceTextures
  by_cases hg : (env.hasStage && env.hasDieline && env.isReady) = true
  · simp [hg, h]
  · simp [hg]

/-- Witness for C5's theorem: a fully ready environment rotated to 90°
leaves the initial front face untouched. -/
theorem updateFaceTextures_skips_when_rotated_witness :
    jsRem sampleSyncEnv.canvasRotation 360 ≠ 0 ∧
    updateFaceTextures sampleSyncEnv createInitialFaces BoxFaceKey.front
      = createInitialFaces BoxFaceKey.front :=
  ⟨by norm_num [jsRem, ratTrunc, sampleSyncEnv],
    updateFaceTextures_skips_when_rotated sampleSyncEnv createInitialFaces
      (by norm_num [jsRem, ratTrunc, sampleSyncEnv]) .front⟩

/-- C9: for a rect of positive width and height, `isInsideDieline` returns
true exactly when the rect's left/top/right/bottom all lie within the
dieline's bounds (so a rect crossing any edge is outside); a rect with zero
or negative width or height returns inside regardless of position. -/
theorem isInsideDieline_spec (d : DielineFrame) (nb : RectBounds) :
    (0 < nb.width → 0 < nb.height →
      (isInsideDieline d nb = true ↔
        (d.x ≤ nb.x ∧ d.y ≤ nb.y ∧
          nb.x + nb.width ≤ d.x + d.width ∧
          nb.y + nb.height ≤ d.y + d.height))) ∧
    (nb.width ≤ 0 ∨ nb.height ≤ 0 → isInsideDieline d nb = true) := by
  constructor
  · intro hw hh
    have hcond : ¬ (nb.width ≤ 0 ∨ nb.height ≤ 0) := by
      push_neg
      exact ⟨hw, hh⟩
    simp [isInsideDieline, hcond, and_assoc]
  · intro h
    simp [isInsideDieline, h]

/-- Witness for C9's theorem: a 20×20 rect at (10,10) is inside the 100×100
dieline at the origin. -/
theorem isInsideDieline_spec_witness :
    0 < sampleRect.width ∧ 0 < sampleRect.height ∧
    isInsideDieline sampleDieline sampleRect = true :=
  ⟨by norm_num [sampleRect], by norm_num [sampleRect],
    ((isInsideDieline_spec sampleDieline sampleRect).1
        (by norm_num [sampleRect]) (by norm_num [sampleRect])).mpr
      (by norm_num [sampleRect, sampleDieline])⟩

lemma repairFontSize_fields (d n : TextNodeData) :
    (repairFontSize d n).letterSpacing = n.letterSpacing ∧
    (repairFontSize d n).radius = n.radius ∧
    (repairFontSize d n).angle = n.angle := by
  unfold repairFontSize
  split_ifs <;> exact ⟨rfl, rfl, rfl⟩

lemma repairLetterSpacing_fields (d n : TextNodeData) :
    (repairLetterSpacing d n).fontSize = n.fontSize ∧
    (repairLetterSpacing d n).radius = n.radius ∧
    (repairLetterSpacing d n).angle = n.angle := by
  unfold repairLetterSpacing
  split_ifs <;> exact ⟨rfl, rfl, rfl⟩

lemma repairRadius_fields (d n : TextNodeData) :
    (repairRadius d n).fontSize = n.fontSize ∧
    (repairRadius d n).letterSpacing = n.letterSpacing ∧
    (repairRadius d n).angle = n.angle := by
  unfold repairRadius
  split_ifs <;> exact ⟨rfl, rfl, rfl⟩

lemma repairAngle_fields (d n : TextNodeData) :
    (repairAngle d n).fontSize = n.fontSize ∧
    (repairAngle d n).letterSpacing = n.letterSpacing ∧
    (repairAngle d n).radius = n.radius := by
  unfold repairAngle
  split_ifs <;> exact ⟨rfl, rfl, rfl⟩

lemma repairFontSize_spec (d n : TextNodeData)
    (h : ∃ x, d.fontSize = .num x ∧ 0 < x) :
    ∃ x, (repairFontSize d n).fontSize = .num x ∧ 0 < x := by
  obtain ⟨fx, hfx, hfp⟩ := h
  unfold repairFontSize
  split_ifs with h1
  · refine ⟨max 12 fx, ?_, lt_max_of_lt_left (by norm_num)⟩
    simp [hfx, JsNum.jsMax]
  · push_neg at h1
    obtain ⟨hfin, hnle⟩ := h1
    cases c : n.fontSize with
    | num y =>
      refine ⟨y, rfl, ?_⟩
      rw [c] at hnle
      simp only [JsNum.leZero] at hnle
      exact not_le.mp hnle
    | nan => exact absurd (by rw [c]; rfl) hfin
    | posInf => exact absurd (by rw [c]; rfl) hfin
    | negInf => exact absurd (by rw [c]; rfl) hfin

lemma repairLetterSpacing_spec (d n : TextNodeData)
    (h : d.letterSpacing.isFinite = true) :
    (repairLetterSpacing d n).letterSpacing.isFinite = true := by
  unfold repairLetterSpacing
  split_ifs with h1
  · exact h
  · cases c : n.letterSpacing.isFinite with
    | false => exact absurd c h1
    | true => rfl

lemma repairRadius_spec (d n : TextNodeData)
    (h : ∃ x, d.radius = .num x ∧ x ≠ 0) :
    ∃ x, (repairRadius d n).radius = .num x ∧ x ≠ 0 := by
  obtain ⟨rx, hrx, hrne⟩ := h
  unfold repairRadius
  split_ifs with h1
  · refine ⟨rx, ?_, hrne⟩
    simp [jsOrNum, JsNum.isFalsy, hrx, hrne]
  · push_neg at h1
    obtain ⟨hfin, hne0⟩ := h1
    cases c : n.radius with
    | num y =>
      refine ⟨y, rfl, ?_⟩
      rw [c] at hne0
      simpa using hne0
    | nan => exact absurd (by rw [c]; rfl) hfin
    | posInf => exact absurd (by rw [c]; rfl) hfin
    | negInf => exact absurd (by rw [c]; rfl) hfin

lemma repairAngle_spec (d n : TextNodeData) (h : d.angle.isFinite = true) :
    (repairAngle d n).angle.isFinite = true := by
  unfold repairAngle
  split_ifs with h1
  · exact h
  · cases c : n.angle.isFinite with
    | false => exact absurd c h1
    | true => rfl

lemma repairTextNumbers_spec (data : TextNodeData) (u : TextNodeUpdates)
    (hfs : ∃ x, data.fontSize = .num x ∧ 0 < x)
    (hls : data.letterSpacing.isFinite = true)
    (hr : ∃ x, data.radius = .num x ∧ x ≠ 0)
    (ha : data.angle.isFinite = true) :
    (∃ x, (repairTextNumbers data u).fontSize = .num x ∧ 0 < x) ∧
    (repairTextNumbers data u).letterSpacing.isFinite = true ∧
    (∃ x, (repairTextNumbers data u).radius = .num x ∧ x ≠ 0) ∧
    (repairTextNumbers data u).angle.isFinite = true := by
  unfold repairTextNumbers
  refine ⟨?_, ?_, ?_, ?_⟩
  · rw [(repairAngle_fields data _).1, (repairRadius_fields data _).1,
      (repairLetterSpacing_fields data _).1]
    exact repairFontSize_spec data _ hfs
  · rw [(repairAngle_fields data _).2.1, (repairRadius_fields data _).2.1]
    exact repairLetterSpacing_spec data _ hls
  · rw [(repairAngle_fields data _).2.2]
    exact repairRadius_spec data _ hr
  · exact repairAngle_spec data _ ha

lemma withUpdatedTextMetrics_core_fields (data : TextNodeData)
    (u : TextNodeUpdates) :
    (withUpdatedTextMetrics data u).fontSize
      = (repairTextNumbers data u).fontSize ∧
    (withUpdatedTextMetrics data u).letterSpacing
      = (repairTextNumbers data u).letterSpacing ∧
    (withUpdatedTextMetrics data u).radius
      = (repairTextNumbers data u).radius ∧
    (withUpdatedTextMetrics data u).angle
      = (repairTextNumbers data u).angle := by
  simp only [withUpdatedTextMetrics]
  split_ifs <;> exact ⟨rfl, rfl, rfl, rfl⟩

/-- C7: for every text-node data record whose `fontSize` is finite positive,
`letterSpacing` and `angle` finite, and `radius` finite nonzero, and every
partial update, `withUpdatedTextMetrics` returns a record whose `fontSize`
is finite and positive, whose `letterSpacing` and `angle` are finite, and
whose `radius` is finite and nonzero; the function is total (it never
throws, repairing out-of-range numeric input instead of propagating it). -/
theorem withUpdatedTextMetrics_repairs (data : TextNodeData)
    (u : TextNodeUpdates)
    (hfs : ∃ x, data.fontSize = .num x ∧ 0 < x)
    (hls : data.letterSpacing.isFinite = true)
    (hr : ∃ x, data.radius = .num x ∧ x ≠ 0)
    (ha : data.angle.isFinite = true) :
    (∃ x, (withUpdatedTextMetrics data u).fontSize = .num x ∧ 0 < x) ∧
    (withUpdatedTextMetrics data u).letterSpacing.isFinite = true ∧
    (∃ x, (withUpdatedTextMetrics data u).radius = .num x ∧ x ≠ 0) ∧
    (withUpdatedTextMetrics data u).angle.isFinite = true := by
  obtain ⟨h1, h2, h3, h4⟩ := withUpdatedTextMetrics_core_fields data u
  obtain ⟨g1, g2, g3, g4⟩ := repairTextNumbers_spec data u hfs hls hr ha
  exact ⟨by rw [h1]; exact g1, by rw [h2]; exact g2,
    by rw [h3]; exact g3, by rw [h4]; exact g4⟩

/-- Witness for C7's theorem: an update supplying a `NaN` font size and an
infinite letter spacing to a healthy text node is repaired. -/
theorem withUpdatedTextMetrics_repairs_witness :
    (∃ x, sampleTextData.fontSize = JsNum.num x ∧ 0 < x) ∧
    sampleTextData.letterSpacing.isFinite = true ∧
    (∃ x, sampleTextData.radius = JsNum.num x ∧ x ≠ 0) ∧
    sampleTextData.angle.isFinite = true ∧
    (∃ x, (withUpdatedTextMetrics sampleTextData sampleTextUpdates).fontSize
        = JsNum.num x ∧ 0 < x) ∧
    (withUpdatedTextMetrics sampleTextData
        sampleTextUpdates).letterSpacing.isFinite = true ∧
    (∃ x, (withUpdatedTextMetrics sampleTextData sampleTextUpdates).radius
        = JsNum.num x ∧ x ≠ 0) ∧
    (withUpdatedTextMetrics sampleTextData
        sampleTextUpdates).angle.isFinite = true := by
  have h := withUpdatedTextMetrics_repairs sampleTextData sampleTextUpdates
    ⟨20, rfl, by norm_num⟩ rfl ⟨150, rfl, by norm_num⟩ rfl
  exact ⟨⟨20, rfl, by norm_num⟩, rfl, ⟨150, rfl, by norm_num⟩, rfl,
    h.1, h.2.1, h.2.2.1, h.2.2.2⟩

lemma foldl_min_le_start (l : List ℝ) (a : ℝ) : List.foldl min a l ≤ a := by
  induction l generalizing a with
  | nil => simp
  | cons b t ih => exact le_trans (ih (min a b)) (min_le_left a b)

lemma foldl_min_le_mem (l : List ℝ) (a x : ℝ) (hx : x ∈ l) :
    List.foldl min a l ≤ x := by
  induction l generalizing a with
  | nil => simp at hx
  | cons b t ih =>
    rcases List.mem_cons.mp hx with rfl | hx'
    · exact le_trans (foldl_min_le_start t (min a x)) (min_le_right a x)
    · exact ih (min a b) hx'

lemma foldl_min_mem (l : List ℝ) (a : ℝ) : List.foldl min a l ∈ a :: l := by
  induction l generalizing a with
  | nil => simp
  | cons b t ih =>
    rw [List.foldl_cons]
    rcases List.mem_cons.mp (ih (min a b)) with heq | hmem
    · rw [heq]
      rcases min_choice a b with hm | hm <;> rw [hm]
      · exact List.mem_cons_self _ _
      · exact List.mem_cons_of_mem _ (List.mem_cons_self _ _)
    · exact List.mem_cons_of_mem _ (List.mem_cons_of_mem _ hmem)

lemma foldl_max_start_le (l : List ℝ) (a : ℝ) : a ≤ List.foldl max a l := by
  induction l generalizing a with
  | nil => simp
  | cons b t ih => exact le_trans (le_max_left a b) (ih (max a b))

lemma foldl_max_mem_le (l : List ℝ) (a x : ℝ) (hx : x ∈ l) :
    x ≤ List.foldl max a l := by
  induction l generalizing a with
  | nil => simp at hx
  | cons b t ih =>
    rcases List.mem_cons.mp hx with rfl | hx'
    · exact le_trans (le_max_right a x) (foldl_max_start_le t (max a x))
    · exact ih (max a b) hx'

lemma foldl_max_mem (l : List ℝ) (a : ℝ) : List.foldl max a l ∈ a :: l := by
  induction l generalizing a with
  | nil => simp
  | cons b t ih =>
    rw [List.foldl_cons]
    rcases List.mem_cons.mp (ih (max a b)) with heq | hmem
    · rw [heq]
      rcases max_choice a b with hm | hm <;> rw [hm]
      · exact List.mem_cons_self _ _
      · exact List.mem_cons_of_mem _ (List.mem_cons_self _ _)
    · exact List.mem_cons_of_mem _ (List.mem_cons_of_mem _ hmem)

lemma listMin_le (l : List ℝ) (x : ℝ) (hx : x ∈ l) : listMin l ≤ x := by
  cases l with
  | nil => simp at hx
  | cons a t =>
    rcases List.mem_cons.mp hx with rfl | hx'
    · exact foldl_min_le_start t x
    · exact foldl_min_le_mem t a x hx'

lemma listMin_mem (l : List ℝ) (h : l ≠ []) : listMin l ∈ l := by
  cases l with
  | nil => exact absurd rfl h
  | cons a t => exact foldl_min_mem t a

lemma le_listMax (l : List ℝ) (x : ℝ) (hx : x ∈ l) : x ≤ listMax l := by
  cases l with
  | nil => simp at hx
  | cons a t =>
    rcases List.mem_cons.mp hx with rfl | hx'
    · exact foldl_max_start_le t x
    · exact foldl_max_mem_le t a x hx'

lemma listMax_mem (l : List ℝ) (h : l ≠ []) : listMax l ∈ l := by
  cases l with
  | nil => exact absurd rfl h
  | cons a t => exact foldl_max_mem t a

lemma curvedWidths_zero_spacing (n : ℕ) (fontSize : ℝ) :
    curvedWidths n fontSize 0
      = List.replicate n (fontSize * letterWidthFactor) := by
  unfold curvedWidths
  simp only [ite_self, add_zero]
  rw [List.map_const' (List.range n), List.length_range]

lemma replicate_getD (n : ℕ) (w : ℝ) (i : ℕ) (h : i < n) :
    (List.replicate n w).getD i 0 = w := by
  simp [List.getD_eq_getElem?_getD, List.getElem?_replicate, h]

lemma curvedGlyphRaw_eval (text : List Char) (n : ℕ)
    (w p sA r A gh : ℝ) (i : ℕ) (hi : i < n) :
    (curvedGlyphRaw text n (List.replicate n w) 0 p sA r A gh i).x
        = r * Real.cos (sA + i * (w * p) + w * p / 2) ∧
    (curvedGlyphRaw text n (List.replicate n w) 0 p sA r A gh i).y
        = r * Real.sin (sA + i * (w * p) + w * p / 2) ∧
    (curvedGlyphRaw text n (List.replicate n w) 0 p sA r A gh i).height
        = gh := by
  have h1 : (List.replicate n w).getD i 0 = w := replicate_getD n w i hi
  have h2 : (((List.replicate n w).take i).map (fun x => x * p)).sum
      = i * (w * p) := by
    rw [List.take_replicate, List.map_replicate, List.sum_replicate,
      min_eq_left (le_of_lt hi)]
    simp [nsmul_eq_mul]
  unfold curvedGlyphRaw
  simp only [h1, h2]
  exact ⟨trivial, trivial, trivial⟩

lemma recenterGlyphs_mirror (gs : List CurvedGlyph) (hne : gs ≠ [])
    (hmirror : ∀ g ∈ gs, ∃ g' ∈ gs, g'.y = -g.y ∧ g'.height = g.height) :
    ∃ cX : ℝ, (recenterGlyphs gs).glyphs
      = gs.map (fun g => { g with x := g.x - cX }) := by
  have hlowne : gs.map (fun g => g.y - g.height / 2) ≠ [] := by
    simpa using hne
  have hhighne : gs.map (fun g => g.y + g.height / 2) ≠ [] := by
    simpa using hne
  have h1 : listMin (gs.map (fun g => g.y - g.height / 2))
      ≤ -(listMax (gs.map (fun g => g.y + g.height / 2))) := by
    obtain ⟨g, hg, hgeq⟩ := List.mem_map.mp
      (listMax_mem (gs.map (fun g => g.y + g.height / 2)) hhighne)
    obtain ⟨g', hg', hy', hh'⟩ := hmirror g hg
    have hmem : g'.y - g'.height / 2 ∈ gs.map (fun g => g.y - g.height / 2) :=
      List.mem_map.mpr ⟨g', hg', rfl⟩
    have h2 := listMin_le _ _ hmem
    rw [hy', hh'] at h2
    rw [← hgeq]
    linarith
  have h2 : -(listMax (gs.map (fun g => g.y + g.height / 2)))
      ≤ listMin (gs.map (fun g => g.y - g.height / 2)) := by
    obtain ⟨g, hg, hgeq⟩ := List.mem_map.mp
      (listMin_mem (gs.map (fun g => g.y - g.height / 2)) hlowne)
    obtain ⟨g', hg', hy', hh'⟩ := hmirror g hg
    have hmem : g'.y + g'.height / 2 ∈ gs.map (fun g => g.y + g.height / 2) :=
      List.mem_map.mpr ⟨g', hg', rfl⟩
    have h3 := le_listMax _ _ hmem
    rw [hy', hh'] at h3
    rw [← hgeq]
    linarith
  have hc : (listMin (gs.map (fun g => g.y - g.height / 2))
      + listMax (gs.map (fun g => g.y + g.height / 2))) / 2 = 0 := by
    linarith
  refine ⟨(listMin (gs.map (fun g => g.x - g.width / 2))
      + listMax (gs.map (fun g => g.x + g.width / 2))) / 2, ?_⟩
  unfold recenterGlyphs
  simp only [hc, sub_zero]

lemma recenter_range_symm (n : ℕ) (hn : 0 < n) (G : ℕ → CurvedGlyph)
    (θ : ℕ → ℝ) (r c : ℝ)
    (hx : ∀ i, i < n → (G i).x = r * Real.cos (θ i))
    (hy : ∀ i, i < n → (G i).y = r * Real.sin (θ i))
    (hh : ∀ i, i < n → (G i).height = c)
    (hθ : ∀ i, i < n → θ (n - 1 - i) = -(θ i)) :
    ∃ (cX : ℝ) (g0 g1 : CurvedGlyph),
      (recenterGlyphs ((List.range n).map G)).glyphs.head? = some g0 ∧
      (recenterGlyphs ((List.range n).map G)).glyphs.getLast? = some g1 ∧
      g0.x = g1.x ∧ g0.y = -g1.y ∧ g0.y = r * Real.sin (θ 0) := by
  obtain ⟨m, rfl⟩ : ∃ m, n = m + 1 :=
    ⟨n - 1, (Nat.succ_pred_eq_of_pos hn).symm⟩
  have hmirror : ∀ g ∈ (List.range (m+1)).map G,
      ∃ g' ∈ (List.range (m+1)).map G, g'.y = -g.y ∧ g'.height = g.height := by
    intro g hg
    obtain ⟨i, hi, rfl⟩ := List.mem_map.mp hg
    have hilt : i < m + 1 := List.mem_range.mp hi
    refine ⟨G (m + 1 - 1 - i), List.mem_map.mpr
      ⟨m + 1 - 1 - i, List.mem_range.mpr (by omega), rfl⟩, ?_, ?_⟩
    · rw [hy (m + 1 - 1 - i) (by omega), hy i hilt, hθ i hilt, Real.sin_neg]
      ring
    · rw [hh (m + 1 - 1 - i) (by omega), hh i hilt]
  have hne : (List.range (m+1)).map G ≠ [] := by
    simp [List.range_succ]
  obtain ⟨cX, hcX⟩ := recenterGlyphs_mirror _ hne hmirror
  have hzm : (m + 1 - 1 - 0) = m := by omega
  have hsym0 : θ m = -(θ 0) := by
    have := hθ 0 (by omega)
    rwa [hzm] at this
  refine ⟨cX, { G 0 with x := (G 0).x - cX }, { G m with x := (G m).x - cX },
    ?_, ?_, ?_, ?_, ?_⟩
  · rw [hcX, List.range_succ_eq_map]
    simp
  · rw [hcX, List.range_succ, List.map_append, List.map_append]
    simp [List.getLast?_concat]
  · show (G 0).x - cX = (G m).x - cX
    rw [hx 0 (by omega), hx m (by omega), hsym0, Real.cos_neg]
  · show (G 0).y = -((G m).y)
    rw [hy 0 (by omega), hy m (by omega), hsym0, Real.sin_neg]
    ring
  · show (G 0).y = r * Real.sin (θ 0)
    exact hy 0 (by omega)

lemma curved_layout_head_last (text : List Char) (fontSize radius : ℝ)
    (htne : text ≠ []) (hfs : 0 < fontSize) :
    ∃ (cX : ℝ) (g0 g1 : CurvedGlyph),
      (computeCurvedTextLayout text fontSize 0 radius 180).glyphs.head?
        = some g0 ∧
      (computeCurvedTextLayout text fontSize 0 radius 180).glyphs.getLast?
        = some g1 ∧
      g0.x = g1.x ∧ g0.y = -g1.y ∧
      g0.y = max 1 |radius| * (if 0 ≤ radius then (1:ℝ) else -1) *
        Real.sin (-Real.pi / 2 + Real.pi / (2 * text.length)) := by
  have hn0 : 0 < text.length := List.length_pos.mpr htne
  have hlw : (0:ℝ) < letterWidthFactor := by norm_num [letterWidthFactor]
  have hw : 0 < fontSize * letterWidthFactor := mul_pos hfs hlw
  have hnR : (0:ℝ) < (text.length : ℝ) := by exact_mod_cast hn0
  have hnne : (text.length : ℝ) ≠ 0 := ne_of_gt hnR
  have hnw : (text.length : ℝ) * (fontSize * letterWidthFactor) ≠ 0 :=
    ne_of_gt (mul_pos hnR hw)
  have hsum : (List.replicate text.length (fontSize * letterWidthFactor)).sum
      = (text.length : ℝ) * (fontSize * letterWidthFactor) := by
    rw [List.sum_replicate]
    simp [nsmul_eq_mul]
  have hE : ¬ (text.isEmpty = true) := by
    cases text with
    | nil => exact absurd rfl htne
    | cons a t => simp
  have hpi : (180:ℝ) * Real.pi / 180 = Real.pi := by ring
  have hreduce : computeCurvedTextLayout text fontSize 0 radius 180
      = recenterGlyphs ((List.range text.length).map
          (curvedGlyphRaw text text.length
            (List.replicate text.length (fontSize * letterWidthFactor)) 0
            (Real.pi / ((text.length : ℝ) * (fontSize * letterWidthFactor)))
            (-Real.pi / 2)
            (max 1 |radius| * (if 0 ≤ radius then (1:ℝ) else -1))
            Real.pi fontSize)) := by
    simp only [computeCurvedTextLayout]
    rw [if_neg hE, curvedWidths_zero_spacing, hsum,
      if_neg (show ¬ (180:ℝ) = 0 by norm_num), hpi, if_neg hnw]
  have hwp : (fontSize * letterWidthFactor) *
      (Real.pi / ((text.length : ℝ) * (fontSize * letterWidthFactor)))
      = Real.pi / (text.length : ℝ) := by
    field_simp
    ring
  have heval := fun (i : ℕ) (hi : i < text.length) =>
    curvedGlyphRaw_eval text text.length (fontSize * letterWidthFactor)
      (Real.pi / ((text.length : ℝ) * (fontSize * letterWidthFactor)))
      (-Real.pi / 2)
      (max 1 |radius| * (if 0 ≤ radius then (1:ℝ) else -1)) Real.pi fontSize
      i hi
  have hx : ∀ i, i < text.length →
      (curvedGlyphRaw text text.length
        (List.replicate text.length (fontSize * letterWidthFactor)) 0
        (Real.pi / ((text.length : ℝ) * (fontSize * letterWidthFactor)))
        (-Real.pi / 2)
        (max 1 |radius| * (if 0 ≤ radius then (1:ℝ) else -1))
        Real.pi fontSize i).x
      = max 1 |radius| * (if 0 ≤ radius then (1:ℝ) else -1) *
        Real.cos (-Real.pi / 2 + (i : ℝ) * (Real.pi / (text.length : ℝ))
          + (Real.pi / (text.length : ℝ)) / 2) := by
    intro i hi
    rw [(heval i hi).1, hwp]
  have hy : ∀ i, i < text.length →
      (curvedGlyphRaw text text.length
        (List.replicate text.length (fontSize * letterWidthFactor)) 0
        (Real.pi / ((text.length : ℝ) * (fontSize * letterWidthFactor)))
        (-Real.pi / 2)
        (max 1 |radius| * (if 0 ≤ radius then (1:ℝ) else -1))
        Real.pi fontSize i).y
      = max 1 |radius| * (if 0 ≤ radius then (1:ℝ) else -1) *
        Real.sin (-Real.pi / 2 + (i : ℝ) * (Real.pi / (text.length : ℝ))
          + (Real.pi / (text.length : ℝ)) / 2) := by
    intro i hi
    rw [(heval i hi).2.1, hwp]
  have hh : ∀ i, i < text.length →
      (curvedGlyphRaw text text.length
        (List.replicate text.length (fontSize * letterWidthFactor)) 0
        (Real.pi / ((text.length : ℝ) * (fontSize * letterWidthFactor)))
        (-Real.pi / 2)
        (max 1 |radius| * (if 0 ≤ radius then (1:ℝ) else -1))
        Real.pi fontSize i).height = fontSize := by
    intro i hi
    exact (heval i hi).2.2
  have hθ : ∀ i, i < text.length →
      (fun j : ℕ => -Real.pi / 2 + (j : ℝ) * (Real.pi / (text.length : ℝ))
          + (Real.pi / (text.length : ℝ)) / 2) (text.length - 1 - i)
        = -((fun j : ℕ => -Real.pi / 2
            + (j : ℝ) * (Real.pi / (text.length : ℝ))
            + (Real.pi / (text.length : ℝ)) / 2) i) := by
    intro i hi
    have hcast : ((text.length - 1 - i : ℕ) : ℝ)
        = (text.length : ℝ) - 1 - (i : ℝ) := by
      have h1 : (text.length - 1 - i) = text.length - (i + 1) := by omega
      rw [h1, Nat.cast_sub (by omega)]
      push_cast
      ring
    simp only []
    rw [hcast]
    field_simp
    ring
  obtain ⟨cX, g0, g1, hh0, hh1, hxx, hyy, hval⟩ :=
    recenter_range_symm text.length hn0 _
      (fun j : ℕ => -Real.pi / 2 + (j : ℝ) * (Real.pi / (text.length : ℝ))
        + (Real.pi / (text.length : ℝ)) / 2)
      (max 1 |radius| * (if 0 ≤ radius then (1:ℝ) else -1)) fontSize
      hx hy hh hθ
  rw [hreduce]
  refine ⟨cX, g0, g1, hh0, hh1, hxx, hyy, ?_⟩
  rw [hval]
  congr 1
  push_cast
  ring

/-- C6 (amended): in `computeCurvedTextLayout` with `angle = 180°`,
`radius = R` and zero letter spacing (the headless measurer gives every
glyph the same width), the centers of the first and last glyphs are
symmetric about the HORIZONTAL axis: `first.x = last.x` and
`first.y = -last.y` (the arc is centered on the positive x-axis, not the
vertical axis); and an empty input returns an empty glyph list with
`width = height = max fontSize 1`. -/
theorem computeCurvedTextLayout_symmetry :
    (∀ fontSize letterSpacing radius angle : ℝ,
      computeCurvedTextLayout [] fontSize letterSpacing radius angle
        = ⟨[], max fontSize 1, max fontSize 1⟩) ∧
    (∀ (text : List Char) (fontSize radius : ℝ),
      text ≠ [] → 0 < fontSize →
      ((computeCurvedTextLayout text fontSize 0 radius 180).glyphs.head?.map
          (fun g => (g.x, g.y)))
        = ((computeCurvedTextLayout text fontSize 0 radius
              180).glyphs.getLast?.map (fun g => (g.x, -g.y)))) := by
  constructor
  · intro fontSize letterSpacing radius angle
    rfl
  · intro text fontSize radius htne hfs
    obtain ⟨cX, g0, g1, h0, h1, hx, hy, _⟩ :=
      curved_layout_head_last text fontSize radius htne hfs
    rw [h0, h1]
    simp only [Option.map_some']
    rw [hx, hy]

/-- Witness for C6's amended theorem: the single-glyph string. -/
theorem computeCurvedTextLayout_symmetry_witness :
    (['a'] : List Char) ≠ [] ∧ (0:ℝ) < 10 ∧
    ((computeCurvedTextLayout ['a'] 10 0 100 180).glyphs.head?.map
        (fun g => (g.x, g.y)))
      = ((computeCurvedTextLayout ['a'] 10 0 100 180).glyphs.getLast?.map
        (fun g => (g.x, -g.y))) :=
  ⟨by simp, by norm_num,
    computeCurvedTextLayout_symmetry.2 ['a'] 10 100 (by simp) (by norm_num)⟩

/-- C6 counterexample to the claim as stated: for the two-glyph string
`"ab"` at fontSize 10, zero letter spacing, radius 100 and angle 180° (equal
measured glyph widths), the first and last glyph centers have different `y`
(they are symmetric about the horizontal axis, not the vertical one), so
`first.y = last.y` fails. -/
theorem curved_first_last_claim_counterexample :
    ((computeCurvedTextLayout ['a', 'b'] 10 0 100 180).glyphs.head?.map
        CurvedGlyph.y)
      ≠ ((computeCurvedTextLayout ['a', 'b'] 10 0 100 180).glyphs.getLast?.map
        CurvedGlyph.y) := by
  obtain ⟨cX, g0, g1, h0, h1, hx, hy, hval⟩ :=
    curved_layout_head_last ['a', 'b'] 10 100 (by simp) (by norm_num)
  rw [h0, h1]
  simp only [Option.map_some']
  intro hcontra
  have hcontra' : g0.y = g1.y := Option.some.inj hcontra
  have hfactor : max 1 |(100:ℝ)| * (if (0:ℝ) ≤ 100 then (1:ℝ) else -1)
      = 100 := by
    rw [if_pos (by norm_num), abs_of_pos (by norm_num),
      max_eq_right (by norm_num)]
    ring
  have hlen : (((['a', 'b'] : List Char).length : ℝ)) = 2 := by norm_num
  have harg : -Real.pi / 2
      + Real.pi / (2 * ((['a', 'b'] : List Char).length : ℝ))
      = -(Real.pi / 4) := by
    rw [hlen]
    ring
  have hsin : (0:ℝ) < Real.sin (Real.pi / 4) :=
    Real.sin_pos_of_pos_of_lt_pi (by positivity)
      (by linarith [Real.pi_pos])
  have hy0 : g0.y = -(100 * Real.sin (Real.pi / 4)) := by
    rw [hval, hfactor, harg, Real.sin_neg]
    ring
  have hzero : g0.y = 0 := by linarith [hy, hcontra']
  rw [hy0] at hzero
  nlinarith [hsin]

end CloudLabs
